import Mathlib

/-!
Verification development for the Fintech-TUI repository (src/main.rs and
src/ml_fin.rs). Floating-point prices are modelled as exact rationals; the
effectful phases of the HTTP fetch (transport, body read, JSON decode) are
summarised by an explicit response value, and the numeric parser for the
closing-price strings is an abstract parameter.
-/

namespace Fintech

/-- Model of moving_average from src/ml_fin.rs (duplicated as mod ml_fin in
src/main.rs, lines 60-68): if the series is shorter than the window return
none, otherwise the sum of the trailing window elements divided by the
window size. -/
def moving_average (prices : List ℚ) (window : Nat) : Option ℚ :=
  if prices.length < window then none
  else some ((prices.drop (prices.length - window)).sum / (window : ℚ))

/-- Effectful phases of fetch_alpha_vantage in src/main.rs, lines 32-35: the
blocking GET can fail in transport, reading the body can fail, serde_json
deserialisation can fail, or it yields the parsed Time Series (Daily) map,
modelled as an association list from date string to the per-date field map. -/
inductive HttpResponse : Type
  | transportErr (detail : String)
  | bodyErr (detail : String)
  | jsonErr (detail : String)
  | parsed (daily : List (String × List (String × String)))

/-- Model of the filter_map in fetch_alpha_vantage, src/main.rs lines 36-45:
for each (date, values) entry look up the "4. close" field, parse it as a
number, and keep (date, close) when both succeed. The numeric parser for
f64 literals is abstracted as the parameter parse. -/
def extractCloses (parse : String → Option ℚ)
    (daily : List (String × List (String × String))) : List (String × ℚ) :=
  daily.filterMap (fun dv =>
    ((List.lookup "4. close" dv.2).bind parse).map (fun close => (dv.1, close)))

/-- Comparison used by closes.sort_by in src/main.rs line 46: order the
(date, close) pairs by their date strings. -/
def byDate (a b : String × ℚ) : Prop := a.1 ≤ b.1

instance : DecidableRel byDate := fun a b => inferInstanceAs (Decidable (a.1 ≤ b.1))

instance : IsTotal (String × ℚ) byDate := ⟨fun a b => le_total a.1 b.1⟩

instance : IsTrans (String × ℚ) byDate := ⟨fun _ _ _ hab hbc => le_trans hab hbc⟩

/-- Model of fetch_alpha_vantage in src/main.rs, lines 27-57. The effectful
request, body-read and deserialise phases are summarised by the HttpResponse
argument, each mapped to its error prefix from the source; from a parsed
response the function extracts the closes, sorts them by date ascending,
keeps the most recent days entries (reverse, take, map to the close value),
and returns them re-reversed into ascending date order, or the Turkish
no-data error string when nothing is left. -/
def fetch_alpha_vantage (parse : String → Option ℚ) (resp : HttpResponse)
    (days : Nat) : Except String (List ℚ) :=
  match resp with
  | .transportErr e => .error ( "HTTP hatası: " ++ e)
  | .bodyErr e => .error ( "Yanıt okunamadı: " ++ e)
  | .jsonErr e => .error ( "JSON hatası: " ++ e)
  | .parsed daily =>
      let sorted := List.insertionSort byDate (extractCloses parse daily)
      let closes := (sorted.reverse.take days).map Prod.snd
      if closes.isEmpty then .error "API\x27den veri alınamadı"
      else .ok closes.reverse

/-- Session state owned by main in src/main.rs: the current symbol
(line 78), the current price series (line 79) and the current error message
(line 80). -/
structure Session : Type where
  symbol : String
  prices : List ℚ
  errorMsg : String
deriving DecidableEq

/-- Model of the match on the fetch result in main, src/main.rs lines
200-214: a successful non-empty fetch installs the new symbol and prices and
clears the error message; a successful empty fetch only sets the no-data
message; a failed fetch only records its error string. -/
def applyFetch (s : Session) (newSymbol : String)
    (r : Except String (List ℚ)) : Session :=
  match r with
  | .ok p =>
      if ¬ p.isEmpty then { symbol := newSymbol, prices := p, errorMsg := "" }
      else { s with errorMsg := "Bu sembol için veri bulunamadı." }
  | .error e => { s with errorMsg := e }

/-- Event applied to the Session: a Prompt-mode symbol change carries the
entered symbol and the outcome of its fetch. -/
abbrev FetchEvent : Type := String × Except String (List ℚ)

/-- Fold step recording the series of the most recent successful non-empty
fetch seen so far. -/
def lastSuccessStep (acc : Option (List ℚ)) (ev : FetchEvent) :
    Option (List ℚ) :=
  match ev.2 with
  | .ok p => if ¬ p.isEmpty then some p else acc
  | .error _ => acc

/-- Series of the most recent successful non-empty fetch in an event list,
if any. -/
def lastSuccess (evs : List FetchEvent) : Option (List ℚ) :=
  evs.foldl lastSuccessStep none

/-- Repeated application of the Prompt-mode update policy to a Session. -/
def runFetches (s : Session) (evs : List FetchEvent) : Session :=
  evs.foldl (fun st ev => applyFetch st ev.1 ev.2) s

/-- Model of the Session set up at startup, src/main.rs lines 78-80: symbol
AAPL, prices from the initial 30-day fetch with unwrap_or_default (so the
empty list on error), and an empty error message. -/
def initSession (parse : String → Option ℚ) (resp : HttpResponse) : Session :=
  { symbol := "AAPL",
    prices := match fetch_alpha_vantage parse resp 30 with
      | .ok p => p
      | .error _ => [],
    errorMsg := "" }

/-- Model of str::trim as called on the entered line in src/main.rs line
197: strip leading and trailing whitespace characters. -/
def rustTrim (s : String) : String :=
  ⟨((s.data.dropWhile Char.isWhitespace).reverse.dropWhile Char.isWhitespace).reverse⟩

/-- Model of str::to_uppercase as called on the entered line in src/main.rs
line 197, at the character-by-character level. -/
def rustToUppercase (s : String) : String :=
  ⟨s.data.map Char.toUpper⟩

/-- Model of the Enter-key Prompt-mode handler, src/main.rs lines 195-215:
the read line is trimmed and uppercased; when non-empty a fetch for 30 days
is performed and the update policy applied, otherwise nothing happens. The
Bool records whether a fetch was attempted. -/
def promptStep (parse : String → Option ℚ) (s : Session) (input : String)
    (resp : HttpResponse) : Session × Bool :=
  let newSymbol := rustToUppercase (rustTrim input)
  if ¬ newSymbol.isEmpty then
    (applyFetch s newSymbol (fetch_alpha_vantage parse resp 30), true)
  else (s, false)

/-- Sessions reachable in the main loop: the startup Session for some
initial response, plus any number of Prompt-mode steps, each with some
entered line and some response. -/
inductive Reachable (parse : String → Option ℚ) : Session → Prop
  | init (resp : HttpResponse) : Reachable parse (initSession parse resp)
  | step (s : Session) (input : String) (resp : HttpResponse) :
      Reachable parse s → Reachable parse (promptStep parse s input resp).1

/-- Model of the minimum fold over prices in src/main.rs line 130: none
plays the role of the infinite initial accumulator, so the result is none
exactly on the empty list. -/
def foldMinInf (ps : List ℚ) : Option ℚ :=
  ps.foldl (fun acc v => some (match acc with | none => v | some m => min m v)) none

/-- Model of the maximum fold over prices in src/main.rs line 131. -/
def foldMaxInf (ps : List ℚ) : Option ℚ :=
  ps.foldl (fun acc v => some (match acc with | none => v | some m => max m v)) none

/-- Value of the f64 machine epsilon used in src/main.rs line 132. -/
def EPSILON : ℚ := 1 / 2 ^ 52

/-- Model of the y-axis bound computation, src/main.rs lines 129-137: when
the spread of the series is below EPSILON fall back to (min - 1, max + 1),
otherwise (floor of min, ceil of max). none on the empty list, on which the
source never evaluates it. -/
def yBounds (ps : List ℚ) : Option (ℚ × ℚ) :=
  match foldMinInf ps, foldMaxInf ps with
  | some mn, some mx =>
      if |mx - mn| < EPSILON then some (mn - 1, mx + 1)
      else some ((⌊mn⌋ : ℚ), (⌈mx⌉ : ℚ))
  | _, _ => none

/-- Main panel of a frame: the warning paragraph drawn when prices is empty
(src/main.rs lines 104-108), or the price table and chart drawn otherwise
(lines 109-165), summarised by the data they are built from. -/
inductive Panel : Type
  | warning (msg : String)
  | data (lastClose : ℚ) (points : List (ℚ × ℚ)) (bounds : ℚ × ℚ)
deriving DecidableEq

/-- Content of the ma_text info string, src/main.rs lines 167-175; the
numeric formatting is kept structural. -/
inductive MaInfo : Type
  | blank
  | value (ma : ℚ)
  | insufficient
deriving DecidableEq

/-- View model built by the draw closure each frame, src/main.rs lines
83-184. -/
structure ViewModel : Type where
  title : String
  panel : Panel
  maInfo : MaInfo
  errorText : String
deriving DecidableEq

/-- Model of the draw closure of src/main.rs lines 83-184 as a pure function
of the Session: the title string, the warning-or-data panel with latest
close, chart points and y-axis bounds, the moving-average info and the error
text. -/
def viewOf (s : Session) : ViewModel :=
  { title := " Alpha Vantage Terminal - Sembol: " ++ s.symbol ++ " (Çıkmak için Q) ",
    panel :=
      if s.prices.isEmpty then
        .warning "Veri bulunamadı veya API\x27den fiyat alınamadı."
      else
        .data ((s.prices.getLast?).getD 0)
          (s.prices.enum.map (fun iv => ((iv.1 : ℚ), iv.2)))
          ((yBounds s.prices).getD (0, 0)),
    maInfo :=
      if ¬ s.prices.isEmpty then
        match moving_average s.prices 5 with
        | some ma => .value ma
        | none => .insufficient
      else .blank,
    errorText := if ¬ s.errorMsg.isEmpty then "Hata: " ++ s.errorMsg else "" }

/-! Helper lemmas. -/

lemma lastSuccessStep_some (p : List ℚ) (ev : FetchEvent) :
    ∃ q, lastSuccessStep (some p) ev = some q := by
  unfold lastSuccessStep
  match ev with
  | (sym, .ok l) =>
      by_cases h : l.isEmpty
      · exact ⟨p, by simp [h]⟩
      · exact ⟨l, by simp [h]⟩
  | (sym, .error e) => exact ⟨p, rfl⟩

lemma foldl_lastSuccessStep_some (evs : List FetchEvent) (p : List ℚ) :
    ∃ q, evs.foldl lastSuccessStep (some p) = some q := by
  induction evs generalizing p with
  | nil => exact ⟨p, rfl⟩
  | cons ev rest ih =>
      obtain ⟨q, hq⟩ := lastSuccessStep_some p ev
      simpa [List.foldl_cons, hq] using ih q

lemma runFetches_prices_aux (evs : List FetchEvent) (s : Session)
    (a : Option (List ℚ)) (ha : a.getD s.prices = s.prices) :
    (runFetches s evs).prices = (evs.foldl lastSuccessStep a).getD s.prices := by
  induction evs generalizing s a with
  | nil => simpa [runFetches] using ha.symm
  | cons ev rest ih =>
      match ev with
      | (sym, r) =>
          match r with
          | .ok p =>
              by_cases hp : p.isEmpty
              · have hstep : lastSuccessStep a (sym, .ok p) = a := by
                  simp [lastSuccessStep, hp]
                have happ : applyFetch s sym (.ok p) = { s with
                    errorMsg := "Bu sembol için veri bulunamadı." } := by
                  simp [applyFetch, hp]
                simpa [runFetches, List.foldl_cons, hstep, happ] using
                  ih { s with errorMsg := "Bu sembol için veri bulunamadı." } a ha
              · have hstep : lastSuccessStep a (sym, .ok p) = some p := by
                  simp [lastSuccessStep, hp]
                have happ : applyFetch s sym (.ok p) =
                    { symbol := sym, prices := p, errorMsg := "" } := by
                  simp [applyFetch, hp]
                have ih2 := ih { symbol := sym, prices := p, errorMsg := "" }
                  (some p) (by simp)
                obtain ⟨q, hq⟩ := foldl_lastSuccessStep_some rest p
                simp only [runFetches, List.foldl_cons, hstep, happ] at ih2 ⊢
                rw [hq] at ih2 ⊢
                simpa using ih2
          | .error e =>
              have hstep : lastSuccessStep a (sym, .error e) = a := rfl
              have happ : applyFetch s sym (.error e) =
                  { s with errorMsg := e } := rfl
              simpa [runFetches, List.foldl_cons, hstep, happ] using
                ih { s with errorMsg := e } a ha

/-! Theorems about the claims. -/

/-- Claim C1: over any sequence of fetch outcomes applied through
Prompt-mode symbol changes, the Session series equals the series of the most
recent successful non-empty fetch (or the empty series if none occurred);
a successful non-empty outcome installs symbol and series and clears the
error, a successful-empty outcome and a failed outcome leave symbol and
series unchanged and only set the error message. -/
theorem session_update_policy :
    (∀ evs : List FetchEvent,
      (runFetches { symbol := "AAPL", prices := [], errorMsg := "" } evs).prices =
        (lastSuccess evs).getD []) ∧
    (∀ (s : Session) (sym : String) (p : List ℚ), p ≠ [] →
      applyFetch s sym (.ok p) = { symbol := sym, prices := p, errorMsg := "" }) ∧
    (∀ (s : Session) (sym : String),
      applyFetch s sym (.ok []) =
        { s with errorMsg := "Bu sembol için veri bulunamadı." }) ∧
    (∀ (s : Session) (sym : String) (e : String),
      applyFetch s sym (.error e) = { s with errorMsg := e }) := by
  refine ⟨?_, ?_, ?_, ?_⟩
  · intro evs
    simpa [lastSuccess] using
      runFetches_prices_aux evs { symbol := "AAPL", prices := [], errorMsg := "" }
        none rfl
  · intro s sym p hp
    simp [applyFetch, List.isEmpty_iff, hp]
  · intro s sym
    simp [applyFetch]
  · intro s sym e
    rfl

/-- Witness for C1 at concrete inputs. -/
theorem session_update_policy_witness :
    (runFetches { symbol := "AAPL", prices := [], errorMsg := "" }
        [( "MSFT", .ok [3]), ( "Q", .error "t")]).prices =
      (lastSuccess [( "MSFT", .ok [3]), ( "Q", .error "t")]).getD [] ∧
    applyFetch { symbol := "A", prices := [2], errorMsg := "x" } "B" (.ok [1]) =
      { symbol := "B", prices := [1], errorMsg := "" } :=
  ⟨session_update_policy.1 _, session_update_policy.2.1 _ _ _ (by simp)⟩

/-- Claim C2: for window sizes ≥ 1, moving_average returns none exactly when
the series is shorter than the window, and otherwise the arithmetic mean of
the trailing window elements. -/
theorem moving_average_spec (prices : List ℚ) (w : Nat) (hw : 1 ≤ w) :
    (prices.length < w → moving_average prices w = none) ∧
    (w ≤ prices.length →
      ∃ pre suf, prices = pre ++ suf ∧ suf.length = w ∧
        moving_average prices w = some (suf.sum / (w : ℚ))) := by
  constructor
  · intro h
    simp [moving_average, h]
  · intro h
    refine ⟨prices.take (prices.length - w), prices.drop (prices.length - w),
      (List.take_append_drop _ _).symm, ?_, ?_⟩
    · simp [List.length_drop]
      omega
    · simp [moving_average, Nat.not_lt.2 h]

/-- Witness for C2 at the series of spec Scenario B. -/
theorem moving_average_spec_witness :
    1 ≤ 5 ∧
    (([100, 102, 101, 103, 105] : List ℚ).length < 5 →
      moving_average [100, 102, 101, 103, 105] 5 = none) ∧
    (5 ≤ ([100, 102, 101, 103, 105] : List ℚ).length →
      ∃ pre suf, ([100, 102, 101, 103, 105] : List ℚ) = pre ++ suf ∧
        suf.length = 5 ∧
        moving_average [100, 102, 101, 103, 105] 5 = some (suf.sum / (5 : ℚ))) :=
  ⟨by norm_num, moving_average_spec [100, 102, 101, 103, 105] 5 (by norm_num)⟩

/-- Claim C3, counterexample: on a well-formed (parsed) response whose
filtered list of closes is empty, fetch_alpha_vantage returns an Err value,
the very same constructor that carries transport failures, so the outcome is
not distinct from Failure. -/
theorem fetch_empty_not_distinct_cex :
    fetch_alpha_vantage (fun _ => none)
        (.parsed [( "2024-01-01", [( "4. close", "abc")])]) 30 =
      .error "API\x27den veri alınamadı" ∧
    fetch_alpha_vantage (fun _ => none) (.transportErr "x") 30 =
      .error ( "HTTP hatası: " ++ "x") :=
  ⟨rfl, rfl⟩

/-- Claim C3 as amended: on a well-formed response whose filtered list of
closes is empty, fetch_alpha_vantage returns the failure channel (Err) with
the fixed Turkish no-data message, distinguished from other failures only by
its message text, not by a distinct EmptyResult outcome. -/
theorem fetch_empty_is_failure (parse : String → Option ℚ)
    (daily : List (String × List (String × String))) (days : Nat)
    (h : extractCloses parse daily = []) :
    fetch_alpha_vantage parse (.parsed daily) days =
      .error "API\x27den veri alınamadı" := by
  simp [fetch_alpha_vantage, h]

/-- Witness for the amended C3 at a concrete response with no parseable
close. -/
theorem fetch_empty_is_failure_witness :
    extractCloses (fun _ => none) [( "2024-01-02", [( "5. volume", "10")])] = [] ∧
    fetch_alpha_vantage (fun _ => none)
        (.parsed [( "2024-01-02", [( "5. volume", "10")])]) 30 =
      .error "API\x27den veri alınamadı" :=
  ⟨rfl, fetch_empty_is_failure _ _ _ rfl⟩

/-- Claim C4: whenever fetch_alpha_vantage succeeds on a parsed response, the
returned list consists of the close values of a date-sorted list of
(date, close) pairs that is a suffix of the full date-sorted extraction (so
the most recent dates), in ascending date order, with min days
(total extracted) entries. -/
theorem fetch_ok_shape (parse : String → Option ℚ)
    (daily : List (String × List (String × String))) (days : Nat)
    (l : List ℚ)
    (h : fetch_alpha_vantage parse (.parsed daily) days = .ok l) :
    ∃ dated : List (String × ℚ),
      l = dated.map Prod.snd ∧
      dated.length = min days (extractCloses parse daily).length ∧
      List.Sorted byDate dated ∧
      dated <:+ List.insertionSort byDate (extractCloses parse daily) ∧
      (List.insertionSort byDate (extractCloses parse daily)).Perm
        (extractCloses parse daily) := by
  simp only [fetch_alpha_vantage] at h
  set sorted := List.insertionSort byDate (extractCloses parse daily) with hsorted
  by_cases hemp : ((sorted.reverse.take days).map Prod.snd).isEmpty
  · rw [if_pos hemp] at h
    exact absurd h (by simp)
  · rw [if_neg hemp] at h
    have hl : l = ((sorted.reverse.take days).map Prod.snd).reverse :=
      (Except.ok.injEq _ _).mp h |>.symm
    refine ⟨(sorted.reverse.take days).reverse, ?_, ?_, ?_, ?_, ?_⟩
    · rw [hl, List.map_reverse]
    · rw [List.length_reverse, List.length_take, List.length_reverse,
        List.Perm.length_eq (List.perm_insertionSort byDate _)]
    · have hs : List.Sorted byDate sorted := List.sorted_insertionSort byDate _
      have hsuf : (sorted.reverse.take days).reverse <:+ sorted := by
        refine ⟨(sorted.reverse.drop days).reverse, ?_⟩
        calc (sorted.reverse.drop days).reverse ++ (sorted.reverse.take days).reverse
            = (sorted.reverse.take days ++ sorted.reverse.drop days).reverse := by
              rw [List.reverse_append]
          _ = sorted.reverse.reverse := by rw [List.take_append_drop]
          _ = sorted := List.reverse_reverse _
      exact hs.sublist hsuf.sublist
    · refine ⟨(sorted.reverse.drop days).reverse, ?_⟩
      calc (sorted.reverse.drop days).reverse ++ (sorted.reverse.take days).reverse
          = (sorted.reverse.take days ++ sorted.reverse.drop days).reverse := by
            rw [List.reverse_append]
        _ = sorted.reverse.reverse := by rw [List.take_append_drop]
        _ = sorted := List.reverse_reverse _
    · exact List.perm_insertionSort byDate _

/-- Witness for C4 at a concrete one-entry response. -/
theorem fetch_ok_shape_witness :
    fetch_alpha_vantage (fun _ => some 7)
        (.parsed [( "2024-01-03", [( "4. close", "7.0")])]) 30 = .ok [7] ∧
    ∃ dated : List (String × ℚ),
      [(7 : ℚ)] = dated.map Prod.snd ∧
      dated.length =
        min 30 (extractCloses (fun _ => some 7)
          [( "2024-01-03", [( "4. close", "7.0")])]).length ∧
      List.Sorted byDate dated ∧
      dated <:+ List.insertionSort byDate
        (extractCloses (fun _ => some 7) [( "2024-01-03", [( "4. close", "7.0")])]) ∧
      (List.insertionSort byDate
        (extractCloses (fun _ => some 7)
          [( "2024-01-03", [( "4. close", "7.0")])])).Perm
        (extractCloses (fun _ => some 7) [( "2024-01-03", [( "4. close", "7.0")])]) :=
  ⟨rfl, fetch_ok_shape _ _ _ _ rfl⟩

lemma foldMinInf_cons_eq (x : ℚ) (xs : List ℚ) :
    foldMinInf (x :: xs) = some (xs.foldl min x) := by
  suffices h : ∀ (ys : List ℚ) (a : ℚ),
      ys.foldl (fun acc v => some (match acc with | none => v | some m => min m v))
        (some a) = some (ys.foldl min a) by
    simpa [foldMinInf, List.foldl_cons] using h xs x
  intro ys
  induction ys with
  | nil => intro a; rfl
  | cons y ys ih => intro a; simpa [List.foldl_cons] using ih (min a y)

lemma foldMaxInf_cons_eq (x : ℚ) (xs : List ℚ) :
    foldMaxInf (x :: xs) = some (xs.foldl max x) := by
  suffices h : ∀ (ys : List ℚ) (a : ℚ),
      ys.foldl (fun acc v => some (match acc with | none => v | some m => max m v))
        (some a) = some (ys.foldl max a) by
    simpa [foldMaxInf, List.foldl_cons] using h xs x
  intro ys
  induction ys with
  | nil => intro a; rfl
  | cons y ys ih => intro a; simpa [List.foldl_cons] using ih (max a y)

lemma foldl_min_le_init (xs : List ℚ) (a : ℚ) : xs.foldl min a ≤ a := by
  induction xs generalizing a with
  | nil => exact le_refl a
  | cons x xs ih => exact le_trans (ih (min a x)) (min_le_left a x)

lemma foldl_max_ge_init (xs : List ℚ) (a : ℚ) : a ≤ xs.foldl max a := by
  induction xs generalizing a with
  | nil => exact le_refl a
  | cons x xs ih => exact le_trans (le_max_left a x) (ih (max a x))

lemma foldl_min_le_mem (xs : List ℚ) (a x : ℚ) (hx : x ∈ xs) :
    xs.foldl min a ≤ x := by
  induction xs generalizing a with
  | nil => cases hx
  | cons y ys ih =>
      rcases List.mem_cons.mp hx with h | h
      · subst h
        exact le_trans (foldl_min_le_init ys (min a x)) (min_le_right a x)
      · exact ih (min a y) h

lemma foldl_max_ge_mem (xs : List ℚ) (a x : ℚ) (hx : x ∈ xs) :
    x ≤ xs.foldl max a := by
  induction xs generalizing a with
  | nil => cases hx
  | cons y ys ih =>
      rcases List.mem_cons.mp hx with h | h
      · subst h
        exact le_trans (le_max_right a x) (foldl_max_ge_init ys (max a x))
      · exact ih (max a y) h

lemma foldl_min_le_foldl_max (xs : List ℚ) (a b : ℚ) (hab : a ≤ b) :
    xs.foldl min a ≤ xs.foldl max b := by
  induction xs generalizing a b with
  | nil => exact hab
  | cons x xs ih =>
      exact ih (min a x) (max b x)
        (le_trans (min_le_left a x) (le_trans hab (le_max_left b x)))

/-- Claim C5: for every non-empty series the computed y-axis bounds bracket
the minimum and maximum of the series and are strictly ordered; when the
minimum equals the maximum they fall back to min - 1 and max + 1. -/
theorem yBounds_spec (ps : List ℚ) (hne : ps ≠ []) :
    ∃ mn mx ymin ymax,
      foldMinInf ps = some mn ∧ foldMaxInf ps = some mx ∧
      yBounds ps = some (ymin, ymax) ∧
      (∀ x ∈ ps, mn ≤ x ∧ x ≤ mx) ∧
      ymin ≤ mn ∧ mx ≤ ymax ∧ ymin < ymax ∧
      (mn = mx → ymin = mn - 1 ∧ ymax = mx + 1) := by
  cases ps with
  | nil => exact absurd rfl hne
  | cons x xs =>
      have hmn : foldMinInf (x :: xs) = some (xs.foldl min x) :=
        foldMinInf_cons_eq x xs
      have hmx : foldMaxInf (x :: xs) = some (xs.foldl max x) :=
        foldMaxInf_cons_eq x xs
      have hmnmx : xs.foldl min x ≤ xs.foldl max x :=
        foldl_min_le_foldl_max xs x x (le_refl x)
      have hbound : ∀ y ∈ x :: xs, xs.foldl min x ≤ y ∧ y ≤ xs.foldl max x := by
        intro y hy
        rcases List.mem_cons.mp hy with rfl | h
        · exact ⟨foldl_min_le_init xs y, foldl_max_ge_init xs y⟩
        · exact ⟨foldl_min_le_mem xs x y h, foldl_max_ge_mem xs x y h⟩
      by_cases hdeg : |xs.foldl max x - xs.foldl min x| < EPSILON
      · refine ⟨xs.foldl min x, xs.foldl max x, xs.foldl min x - 1,
          xs.foldl max x + 1, hmn, hmx, ?_, hbound, ?_, ?_, ?_, ?_⟩
        · simp [yBounds, hmn, hmx, hdeg]
        · linarith
        · linarith
        · linarith
        · intro _
          exact ⟨rfl, rfl⟩
      · have hlt : xs.foldl min x < xs.foldl max x := by
          rcases lt_or_eq_of_le hmnmx with h | h
          · exact h
          · exfalso
            apply hdeg
            rw [h]
            norm_num [EPSILON]
        refine ⟨xs.foldl min x, xs.foldl max x, ((⌊xs.foldl min x⌋ : ℤ) : ℚ),
          ((⌈xs.foldl max x⌉ : ℤ) : ℚ), hmn, hmx, ?_, hbound, ?_, ?_, ?_, ?_⟩
        · simp [yBounds, hmn, hmx, hdeg]
        · exact Int.floor_le _
        · exact Int.le_ceil _
        · exact lt_of_le_of_lt (Int.floor_le _)
            (lt_of_lt_of_le hlt (Int.le_ceil _))
        · intro h
          exact absurd h (ne_of_lt hlt)

/-- Witness for C5 at a concrete two-element series. -/
theorem yBounds_spec_witness :
    ([ (7 : ℚ) / 2, 5] ≠ []) ∧
    ∃ mn mx ymin ymax,
      foldMinInf [(7 : ℚ) / 2, 5] = some mn ∧
      foldMaxInf [(7 : ℚ) / 2, 5] = some mx ∧
      yBounds [(7 : ℚ) / 2, 5] = some (ymin, ymax) ∧
      (∀ x ∈ [(7 : ℚ) / 2, 5], mn ≤ x ∧ x ≤ mx) ∧
      ymin ≤ mn ∧ mx ≤ ymax ∧ ymin < ymax ∧
      (mn = mx → ymin = mn - 1 ∧ ymax = mx + 1) :=
  ⟨by simp, yBounds_spec [(7 : ℚ) / 2, 5] (by simp)⟩

/-- Claim C6: a Prompt-mode line that is empty after trimming causes no
fetch and leaves the whole Session unchanged. -/
theorem blank_input_noop (parse : String → Option ℚ) (s : Session)
    (input : String) (resp : HttpResponse) (h : rustTrim input = "") :
    promptStep parse s input resp = (s, false) := by
  have hup : (rustToUppercase (rustTrim input)).isEmpty = true := by
    rw [h]
    rfl
  simp [promptStep, hup]

/-- Witness for C6 at a whitespace-only line. -/
theorem blank_input_noop_witness :
    rustTrim "  " = "" ∧
    promptStep (fun _ => none) { symbol := "AAPL", prices := [3], errorMsg := "e" }
        "  " (.transportErr "x") =
      ({ symbol := "AAPL", prices := [3], errorMsg := "e" }, false) :=
  ⟨by decide, blank_input_noop _ _ _ _ (by decide)⟩

lemma fetch_ok_length_le (parse : String → Option ℚ) (resp : HttpResponse)
    (days : Nat) (l : List ℚ)
    (h : fetch_alpha_vantage parse resp days = .ok l) : l.length ≤ days := by
  cases resp with
  | transportErr e => exact absurd h (by simp [fetch_alpha_vantage])
  | bodyErr e => exact absurd h (by simp [fetch_alpha_vantage])
  | jsonErr e => exact absurd h (by simp [fetch_alpha_vantage])
  | parsed daily =>
      simp only [fetch_alpha_vantage] at h
      set sorted := List.insertionSort byDate (extractCloses parse daily)
      by_cases hemp : ((sorted.reverse.take days).map Prod.snd).isEmpty
      · rw [if_pos hemp] at h
        exact absurd h (by simp)
      · rw [if_neg hemp] at h
        have hl : l = ((sorted.reverse.take days).map Prod.snd).reverse :=
          (Except.ok.injEq _ _).mp h |>.symm
        rw [hl, List.length_reverse, List.length_map]
        exact List.length_take_le days _

lemma fetch_ok_ne_nil (parse : String → Option ℚ) (resp : HttpResponse)
    (days : Nat) (l : List ℚ)
    (h : fetch_alpha_vantage parse resp days = .ok l) : l ≠ [] := by
  cases resp with
  | transportErr e => exact absurd h (by simp [fetch_alpha_vantage])
  | bodyErr e => exact absurd h (by simp [fetch_alpha_vantage])
  | jsonErr e => exact absurd h (by simp [fetch_alpha_vantage])
  | parsed daily =>
      simp only [fetch_alpha_vantage] at h
      set sorted := List.insertionSort byDate (extractCloses parse daily)
      by_cases hemp : ((sorted.reverse.take days).map Prod.snd).isEmpty
      · rw [if_pos hemp] at h
        exact absurd h (by simp)
      · rw [if_neg hemp] at h
        have hl : l = ((sorted.reverse.take days).map Prod.snd).reverse :=
          (Except.ok.injEq _ _).mp h |>.symm
        rw [hl]
        simpa [List.isEmpty_iff] using hemp

/-- Claim C7: fetch_alpha_vantage never returns more entries than requested,
and since the startup fetch and every Prompt-mode fetch request 30 days,
every reachable Session holds at most 30 prices. -/
theorem reachable_prices_bounded (parse : String → Option ℚ) :
    (∀ (resp : HttpResponse) (days : Nat) (l : List ℚ),
      fetch_alpha_vantage parse resp days = .ok l → l.length ≤ days) ∧
    (∀ s : Session, Reachable parse s → s.prices.length ≤ 30) := by
  refine ⟨fun resp days l h => fetch_ok_length_le parse resp days l h, ?_⟩
  intro s h
  induction h with
  | init resp =>
      simp only [initSession]
      cases hf : fetch_alpha_vantage parse resp 30 with
      | ok p => simpa using fetch_ok_length_le parse resp 30 p hf
      | error e => simp
  | step s input resp hr ih =>
      simp only [promptStep]
      by_cases hin : (rustToUppercase (rustTrim input)).isEmpty
      · simpa [hin] using ih
      · simp only [hin, not_false_iff, if_true]
        cases hf : fetch_alpha_vantage parse resp 30 with
        | ok p =>
            by_cases hp : p.isEmpty
            · simpa [applyFetch, hp] using ih
            · simpa [applyFetch, hp] using fetch_ok_length_le parse resp 30 p hf
        | error e => simpa [applyFetch] using ih

/-- Witness for C7 at a concrete reachable Session. -/
theorem reachable_prices_bounded_witness :
    Reachable (fun _ => none) (initSession (fun _ => none) (.transportErr "x")) ∧
    (initSession (fun _ => none) (.transportErr "x")).prices.length ≤ 30 :=
  ⟨Reachable.init _,
    (reachable_prices_bounded (fun _ => none)).2 _ (Reachable.init _)⟩

/-- Claim C8: when the startup fetch fails, the Session starts with the
default symbol, an empty series and an empty error message, and the frame
built from it shows the no-data warning panel with empty error text. -/
theorem startup_failure_view (parse : String → Option ℚ)
    (resp : HttpResponse) (e : String)
    (h : fetch_alpha_vantage parse resp 30 = .error e) :
    initSession parse resp = { symbol := "AAPL", prices := [], errorMsg := "" } ∧
    (viewOf (initSession parse resp)).panel =
      .warning "Veri bulunamadı veya API\x27den fiyat alınamadı." ∧
    (viewOf (initSession parse resp)).errorText = "" := by
  have h1 : initSession parse resp =
      { symbol := "AAPL", prices := [], errorMsg := "" } := by
    simp [initSession, h]
  refine ⟨h1, ?_, ?_⟩
  · rw [h1]
    rfl
  · rw [h1]
    rfl

/-- Witness for C8 at a concrete failing startup fetch. -/
theorem startup_failure_view_witness :
    fetch_alpha_vantage (fun _ => none) (.transportErr "timeout") 30 =
      .error ( "HTTP hatası: " ++ "timeout") ∧
    initSession (fun _ => none) (.transportErr "timeout") =
      { symbol := "AAPL", prices := [], errorMsg := "" } ∧
    (viewOf (initSession (fun _ => none) (.transportErr "timeout"))).panel =
      .warning "Veri bulunamadı veya API\x27den fiyat alınamadı." ∧
    (viewOf (initSession (fun _ => none) (.transportErr "timeout"))).errorText = "" :=
  ⟨rfl, startup_failure_view _ _ ( "HTTP hatası: " ++ "timeout") rfl⟩

/-- Claim C9: every successful fetch returns a non-empty list, so on fetch
results the controller only ever takes the successful-non-empty branch or
the error branch; the successful-but-empty branch, which would set the
no-data-found message, is unreachable. -/
theorem fetch_ok_nonempty_branch (parse : String → Option ℚ)
    (resp : HttpResponse) (days : Nat) :
    (∀ l : List ℚ, fetch_alpha_vantage parse resp days = .ok l → l ≠ []) ∧
    (∀ (s : Session) (sym : String),
      (∃ p : List ℚ, fetch_alpha_vantage parse resp days = .ok p ∧ p ≠ [] ∧
        applyFetch s sym (fetch_alpha_vantage parse resp days) =
          { symbol := sym, prices := p, errorMsg := "" }) ∨
      (∃ e : String, fetch_alpha_vantage parse resp days = .error e ∧
        applyFetch s sym (fetch_alpha_vantage parse resp days) =
          { s with errorMsg := e })) := by
  refine ⟨fun l h => fetch_ok_ne_nil parse resp days l h, ?_⟩
  intro s sym
  cases hf : fetch_alpha_vantage parse resp days with
  | ok p =>
      left
      have hp := fetch_ok_ne_nil parse resp days p hf
      exact ⟨p, rfl, hp, by simp [applyFetch, List.isEmpty_iff, hp]⟩
  | error e =>
      right
      exact ⟨e, rfl, rfl⟩

/-- Witness for C9 at a concrete successful fetch. -/
theorem fetch_ok_nonempty_branch_witness :
    fetch_alpha_vantage (fun _ => some 7)
        (.parsed [( "2024-01-04", [( "4. close", "7.0")])]) 30 = .ok [7] ∧
    ([(7 : ℚ)] ≠ []) :=
  ⟨rfl, (fetch_ok_nonempty_branch (fun _ => some 7)
    (.parsed [( "2024-01-04", [( "4. close", "7.0")])]) 30).1 [7] rfl⟩

/-- Claim C10, counterexample: a fully parsed (well-formed) response with no
usable entries still produces an Err value, so failures do not arise only
from transport, body-read or JSON-deserialisation errors. -/
theorem fetch_parsed_failure_cex :
    fetch_alpha_vantage (fun _ => none) (.parsed []) 30 =
      .error "API\x27den veri alınamadı" :=
  rfl

/-- Claim C10 as amended: per-date entries whose close field is missing or
unparseable are silently skipped (removing such an entry does not change the
outcome), and an Err value arises only from a transport error, an unreadable
body, a JSON-deserialisation failure, or the final emptiness check with its
fixed no-data message. -/
theorem fetch_skip_and_failure_classification :
    (∀ (parse : String → Option ℚ) (date : String)
      (fields : List (String × String))
      (rest : List (String × List (String × String))) (days : Nat),
      (List.lookup "4. close" fields).bind parse = none →
      fetch_alpha_vantage parse (.parsed ((date, fields) :: rest)) days =
        fetch_alpha_vantage parse (.parsed rest) days) ∧
    (∀ (parse : String → Option ℚ) (resp : HttpResponse) (days : Nat)
      (e : String),
      fetch_alpha_vantage parse resp days = .error e →
      (∃ d, resp = .transportErr d ∧ e = "HTTP hatası: " ++ d) ∨
      (∃ d, resp = .bodyErr d ∧ e = "Yanıt okunamadı: " ++ d) ∨
      (∃ d, resp = .jsonErr d ∧ e = "JSON hatası: " ++ d) ∨
      (∃ daily, resp = .parsed daily ∧ e = "API\x27den veri alınamadı")) := by
  constructor
  · intro parse date fields rest days h
    have hext : extractCloses parse ((date, fields) :: rest) =
        extractCloses parse rest := by
      cases hl : List.lookup "4. close" fields with
      | none => simp [extractCloses, List.filterMap_cons, hl]
      | some v =>
          have hv : parse v = none := by simpa [hl] using h
          simp [extractCloses, List.filterMap_cons, hl, hv]
    simp [fetch_alpha_vantage, hext]
  · intro parse resp days e h
    cases resp with
    | transportErr d =>
        refine Or.inl ⟨d, rfl, ?_⟩
        simpa [fetch_alpha_vantage] using h.symm
    | bodyErr d =>
        refine Or.inr (Or.inl ⟨d, rfl, ?_⟩)
        simpa [fetch_alpha_vantage] using h.symm
    | jsonErr d =>
        refine Or.inr (Or.inr (Or.inl ⟨d, rfl, ?_⟩))
        simpa [fetch_alpha_vantage] using h.symm
    | parsed daily =>
        refine Or.inr (Or.inr (Or.inr ⟨daily, rfl, ?_⟩))
        simp only [fetch_alpha_vantage] at h
        by_cases hemp : ((( List.insertionSort byDate
            (extractCloses parse daily)).reverse.take days).map Prod.snd).isEmpty
        · rw [if_pos hemp] at h
          exact ((Except.error.injEq _ _).mp h).symm
        · rw [if_neg hemp] at h
          exact absurd h (by simp)

/-- Witness for the amended C10, applying the skip part to an entry with no
close field and the classification part to a transport failure. -/
theorem fetch_skip_and_failure_classification_witness :
    ((List.lookup "4. close" [( "1. open", "3.0")]).bind (fun _ => (none : Option ℚ)) =
        none ∧
      fetch_alpha_vantage (fun _ => none)
          (.parsed [( "2024-01-05", [( "1. open", "3.0")])]) 5 =
        fetch_alpha_vantage (fun _ => none) (.parsed []) 5) ∧
    ((∃ d, (HttpResponse.transportErr "t") = .transportErr d ∧
        ( "HTTP hatası: " ++ "t") = "HTTP hatası: " ++ d) ∨
      (∃ d, (HttpResponse.transportErr "t") = .bodyErr d ∧
        ( "HTTP hatası: " ++ "t") = "Yanıt okunamadı: " ++ d) ∨
      (∃ d, (HttpResponse.transportErr "t") = .jsonErr d ∧
        ( "HTTP hatası: " ++ "t") = "JSON hatası: " ++ d) ∨
      (∃ daily, (HttpResponse.transportErr "t") = .parsed daily ∧
        ( "HTTP hatası: " ++ "t") = "API\x27den veri alınamadı")) :=
  ⟨⟨rfl, fetch_skip_and_failure_classification.1 _ _ _ _ 5 rfl⟩,
    fetch_skip_and_failure_classification.2 (fun _ => none)
      (.transportErr "t") 5 ( "HTTP hatası: " ++ "t") rfl⟩

end Fintech
